import Mathlib

/-
Verification of the line-transformation logic of arxiv2kindle
(src/arxiv2kindle.py) against its natural-language specification.

The program is a sequence of text transformations over lists of lines.
Lines are modelled as `List Char`; the line list of a file as
`List (List Char)`.  Each specific regular expression used by the source is
embedded as an executable scanner that is faithful to Python `re` semantics
on the ASCII inputs the tool manipulates; the spot where this matters is
noted at each definition.  File renaming / writing, process invocation and
network access are outside the transformation logic and are not modelled;
the functions below return the data that the Python code writes back.
-/

namespace A2K

/-- Whitespace characters stripped by Python str.strip on the ASCII texts
the tool handles. -/
def pySpace (c : Char) : Bool :=
  c = ' ' || c = '\t' || c = '\n' || c = '\r' || c = '\x0b' || c = '\x0c'

/-- Python str.strip: drop leading and trailing whitespace. -/
def pyStrip (l : List Char) : List Char :=
  ((l.dropWhile pySpace).reverse.dropWhile pySpace).reverse

/-- Python regex word character (ASCII range), as used by the \w and \b
constructs in change_size.  The tool operates on ASCII LaTeX sources. -/
def wordChar (c : Char) : Bool :=
  c.isAlphanum || c = '_'

/-- Emit an accumulated word run (held reversed), deleting it when it
matches the predicate.  Helper for subWordRuns. -/
def flushRun (p : List Char → Bool) (acc : List Char) : List Char :=
  let run := acc.reverse
  if run = [] then [] else if p run then [] else run

/-- Scanner for subWordRuns: walks the string keeping the current maximal
word-character run in an accumulator. -/
def swrGo (p : List Char → Bool) : List Char → List Char → List Char
  | acc, [] => flushRun p acc
  | acc, c :: cs =>
    if wordChar c then swrGo p (c :: acc) cs
    else flushRun p acc ++ c :: swrGo p [] cs

/-- Delete every maximal word-character run matching p, keep everything
else.  This is the effect of an empty-replacement re.sub for each of the three
documentclass patterns of change_size: each of them is of the form
\b...\b with a body made of word characters only, so a match is always an
entire maximal word run, and the run predicates below characterise exactly
the runs those patterns match. -/
def subWordRuns (p : List Char → Bool) (l : List Char) : List Char :=
  swrGo p [] l

/-- Word runs matched by the font-size pattern (digits immediately followed
by pt, delimited by word boundaries): one or more digits then exactly
the two letters p t. -/
def ptRun (r : List Char) : Bool :=
  decide (3 ≤ r.length) &&
  (r.take (r.length - 2)).all Char.isDigit &&
  r.drop (r.length - 2) == ['p', 't']

/-- Word runs matched by the column pattern (a nonempty word-character
sequence immediately followed by the word column, at word boundaries):
length at least 7 and the last six characters spell column. -/
def colRun (r : List Char) : Bool :=
  decide (7 ≤ r.length) && r.drop (r.length - 6) == "column".toList

/-- Word runs matched by the paper-size pattern: length at least 6 and the
last five characters spell paper. -/
def papRun (r : List Char) : Bool :=
  decide (6 ≤ r.length) && r.drop (r.length - 5) == "paper".toList

/-- Single left-to-right pass removing every comma immediately preceded by
an opening bracket, as re.sub with a lookbehind does: the Boolean state
records whether the previous character of the original string was the
opening bracket. -/
def cs1 : Bool → List Char → List Char
  | _, [] => []
  | pLB, c :: cs =>
    if c == ',' && pLB then cs1 false cs
    else c :: cs1 (c == '[') cs

/-- Single left-to-right pass removing every comma immediately followed by
a closing bracket or another comma (re.sub with a lookahead): the
lookahead inspects the next original character without consuming it. -/
def cs2 : List Char → List Char
  | [] => []
  | c :: cs =>
    if c == ',' && (cs.head? == some ']' || cs.head? == some ',') then cs2 cs
    else c :: cs2 cs

/-- The five substitutions change_size applies to the line it indexes as
the documentclass line (source lines 107-113): strip font-size tokens,
column tokens and paper-size tokens, then normalize stray commas. -/
def dclassSub (l : List Char) : List Char :=
  cs2 (cs1 false (subWordRuns papRun (subWordRuns colRun (subWordRuns ptRun l))))

/-- Match a literal pattern at the head of a string, returning the rest. -/
def stripPre : List Char → List Char → Option (List Char)
  | [], l => some l
  | _ :: _, [] => none
  | p :: ps, c :: cs => if p == c then stripPre ps cs else none

/-- Characters matched by the regex class of digits and dots used in the
figure-size patterns. -/
def digitDot (c : Char) : Bool :=
  c.isDigit || c == '.'

/-- Python substring containment (the in operator on strings). -/
def containsSeq (pat : List Char) : List Char → Bool
  | [] => (stripPre pat ([] : List Char)).isSome
  | c :: cs => (stripPre pat (c :: cs)).isSome || containsSeq pat cs

/-- The part of the figure-width pattern after its literal opening: a
nonempty run of digits and dots (greedy; no backtracking is possible
because a backslash follows and is not in the class), then the linewidth
or textwidth closing.  Returns the captured fraction and the rest of the
string after the match. -/
def widthTail (l1 : List Char) : Option (List Char × List Char) :=
  if l1.takeWhile digitDot = [] then none
  else
    match stripPre "\\linewidth]".toList (l1.dropWhile digitDot) with
    | some rest => some (l1.takeWhile digitDot, rest)
    | none =>
      match stripPre "\\textwidth]".toList (l1.dropWhile digitDot) with
      | some rest => some (l1.takeWhile digitDot, rest)
      | none => none

/-- Try the figure-width pattern at the current position. -/
def matchWidthAt (l : List Char) : Option (List Char × List Char) :=
  (stripPre "\\includegraphics[width=".toList l).bind widthTail

/-- The part of the explicit-scale pattern after its literal opening. -/
def scaleTail (l1 : List Char) : Option (List Char × List Char) :=
  if l1.takeWhile digitDot = [] then none
  else
    match stripPre "]".toList (l1.dropWhile digitDot) with
    | some rest => some (l1.takeWhile digitDot, rest)
    | none => none

/-- Try the explicit-scale pattern at the current position. -/
def matchScaleAt (l : List Char) : Option (List Char × List Char) :=
  (stripPre "\\includegraphics[scale=".toList l).bind scaleTail

/-- Try the size-less includegraphics pattern at the current position. -/
def matchIncgAt (l : List Char) : Option (List Char × List Char) :=
  (stripPre "\\includegraphics\x7b".toList l).map (fun rest => (([] : List Char), rest))

/-- Capture group of the leftmost match of a pattern (re.search). -/
def firstMatch (m : List Char → Option (List Char × List Char)) :
    List Char → Option (List Char)
  | [] => none
  | c :: cs =>
    match m (c :: cs) with
    | some (f, _) => some f
    | none => firstMatch m cs

/-- Replace every non-overlapping occurrence of a pattern with a fixed
replacement, scanning left to right and resuming after each match, as
re.sub does.  The fuel argument only serves structural termination: every
match of the patterns used here consumes at least one character, so the
initial fuel (the string length, see subAll) is never exhausted. -/
def subAllF (m : List Char → Option (List Char × List Char))
    (repl : List Char) : Nat → List Char → List Char
  | _, [] => []
  | 0, l => l
  | fu + 1, c :: cs =>
    match m (c :: cs) with
    | some (_, rest) => repl ++ subAllF m repl fu rest
    | none => c :: subAllF m repl fu cs

/-- re.sub with a constant replacement string. -/
def subAll (m : List Char → Option (List Char × List Char))
    (repl : List Char) (l : List Char) : List Char :=
  subAllF m repl l.length l

/-- Replacement the width branch substitutes, with the captured fraction
interpolated twice (the f-string at source line 137; the doubled
backslashes there denote single backslashes in the substituted text). -/
def widthRepl (f : List Char) : List Char :=
  "\\includegraphics[width=".toList ++ f ++ "\\textwidth,height=".toList ++ f
    ++ "\\textheight,keepaspectratio]".toList

/-- Replacement of the size-less branch (source line 144). -/
def noSizeRepl : List Char :=
  "\\includegraphics[scale=0.5]\x7b".toList

/-- Decimal rendering of float(s) / 2 as Python str produces it, for the
numerals the scale pattern captures: parse the decimal, halve it exactly
(append one fractional digit, multiply digits by five), strip trailing
fractional zeros but keep at least one.  This agrees with the Python
float computation whenever the decimal is short enough for the double
round trip to be exact and shortest, which holds at every input evaluated
in this file; strings with several dots, on which Python float() raises,
are outside the scope of the claims. -/
def natFromDigits (l : List Char) : Nat :=
  l.foldl (fun a c => a * 10 + (c.toNat - 48)) 0

def stripTrailZeros (l : List Char) : List Char :=
  (l.reverse.dropWhile (fun c => c == '0')).reverse

def halfStr (f : List Char) : List Char :=
  let ip := f.takeWhile (fun c => c != '.')
  let fp := (f.dropWhile (fun c => c != '.')).drop 1
  let m := 5 * natFromDigits (ip ++ fp)
  let tf := fp.length + 1
  let dm := (Nat.repr m).toList
  let ds := List.replicate (tf + 1 - dm.length) '0' ++ dm
  let ipart := ds.take (ds.length - tf)
  let fpart0 := ds.drop (ds.length - tf)
  let fpart := if stripTrailZeros fpart0 = [] then ['0'] else stripTrailZeros fpart0
  ipart ++ '.' :: fpart

/-- Replacement of the scale branch (source line 153).  The f-string
produces the template \\includegraphics\[scale=...\] ; re.sub turns the
doubled backslash into one backslash and keeps the unknown escapes of the
two brackets as they stand, so the substituted text literally contains a
backslash before each bracket. -/
def scaleRepl (h : List Char) : List Char :=
  "\\includegraphics\\[scale=".toList ++ h ++ "\\]".toList

/-- The per-line figure-shrinking pass of change_size (source lines
130-155): the three patterns are tried in order and the first match wins;
the replacement is built once from the leftmost match and substituted for
every occurrence, exactly as the Python loop body does. -/
def figPass (line : List Char) : List Char :=
  match firstMatch matchWidthAt line with
  | some f => subAll matchWidthAt (widthRepl f) line
  | none =>
    if containsSeq "\\includegraphics\x7b".toList line then
      subAll matchIncgAt noSizeRepl line
    else
      match firstMatch matchScaleAt line with
      | some f => subAll matchScaleAt (scaleRepl (halfStr f)) line
      | none => line

/-- After a dollar sign and one consumed character: is there a further
dollar sign before the end of the line or a newline character?  (The dot
of the regex does not match newline.) -/
def findClose : List Char → Bool
  | [] => false
  | c :: cs => if c == '$' then true else if c == '\n' then false else findClose cs

/-- After an opening dollar sign: at least one non-newline character, then
a closing dollar sign with no newline in between. -/
def afterOpen : List Char → Bool
  | [] => false
  | c :: cs => if c == '\n' then false else findClose cs

/-- Existence of a match of the inline-math pattern of source line 160 -
an opening dollar, one or more non-newline characters, a closing
dollar. -/
def hasDollarPair : List Char → Bool
  | [] => false
  | c :: cs => (c == '$' && afterOpen cs) || hasDollarPair cs

/-- The per-line inline-math pass of change_size (source lines 158-162). -/
def sloppyPass (line : List Char) : List Char :=
  if hasDollarPair line then "\\sloppy ".toList ++ line else line

/-- Python list.insert: inserts before the given index, appending when the
index reaches past the end. -/
def insertAt {α : Type} : Nat → α → List α → List α
  | _, x, [] => [x]
  | 0, x, l => x :: l
  | n + 1, x, c :: cs => c :: insertAt n x cs

/-- Python item assignment src[i] = f(src[i]), failing (IndexError) when
the index is out of range. -/
def modifyAt? {α : Type} (f : α → α) : Nat → List α → Option (List α)
  | _, [] => none
  | 0, c :: cs => some (f c :: cs)
  | n + 1, c :: cs => (modifyAt? f n cs).map (fun l => c :: l)

/-- Indices of the elements satisfying a predicate, in order. -/
def idxsWhere {α : Type} (p : α → Bool) : List α → List Nat
  | [] => []
  | x :: xs =>
    if p x then 0 :: (idxsWhere p xs).map (fun i => i + 1)
    else (idxsWhere p xs).map (fun i => i + 1)

/-- Python str.join with a comma separator. -/
def joinComma : List (List Char) → List Char
  | [] => []
  | [x] => x
  | x :: y :: rest => x ++ ',' :: joinComma (y :: rest)

def dclassMark : List Char := "\\documentclass".toList

def beginDocMark : List Char := "\\begin{document}".toList

def pagestyleLine : List Char := "\\pagestyle{empty}\n".toList

def breqnLine : List Char := "\\usepackage{breqn}\n".toList

def timesLine : List Char := "\\usepackage{times}\n".toList

def pdflscapeLine : List Char := "\\usepackage{pdflscape}\n".toList

/-- The options string of the inserted geometry invocation (source lines
118-119): the settings serialized as comma-joined key=value pairs, with
,landscape appended when the landscape flag is set. -/
def geomStr (g : List (List Char × List Char)) (landscape : Bool) : List Char :=
  joinComma (g.map (fun kv => kv.1 ++ '=' :: kv.2)) ++
    (if landscape then ",landscape".toList else [])

/-- The inserted geometry invocation line (source line 122). -/
def geomLine (g : List (List Char × List Char)) (landscape : Bool) : List Char :=
  "\\usepackage[".toList ++ geomStr g landscape ++ "]{geometry}\n".toList

/-- The comment/blank filter of source line 104: keep a line unless its
first character is the comment marker or its stripped content is empty.
(Lines produced by readlines are never the empty string, so indexing the
first character is safe.) -/
def keepLine (l : List Char) : Bool :=
  !(l.head? == some '%') && !(pyStrip l == [])

/-- The lines change_size inserts immediately before the document-body
line, in the top-to-bottom order they end up in (each list.insert at the
same index pushes the previously inserted lines down, so the last insert
is topmost). -/
def blockLines (g : List (List Char × List Char)) (landscape : Bool) :
    List (List Char) :=
  (if landscape then [pdflscapeLine] else []) ++
    [breqnLine, pagestyleLine, timesLine, geomLine g landscape]

/-- The whole line transformation of change_size (source lines 95-166),
from the line list read from the main file to the line list written back:
locate the first line containing the documentclass marker (none: the
Python generator raises), filter comment and blank lines, apply the five
documentclass substitutions at the previously computed index inside the
filtered list (out of range: IndexError), require exactly one line of the
filtered list to start the document body (otherwise the assert fails),
insert the five (or four) package lines before it, then run the
figure-shrinking pass and the inline-math pass over every line. -/
def change_size (src : List (List Char)) (g : List (List Char × List Char))
    (landscape : Bool) : Option (List (List Char)) :=
  match (idxsWhere (containsSeq dclassMark) src).head? with
  | none => none
  | some dclassIdx =>
    match modifyAt? dclassSub dclassIdx (src.filter keepLine) with
    | none => none
    | some src2 =>
      match idxsWhere (fun l => (stripPre beginDocMark l).isSome) src2 with
      | [b] =>
        some
          (((if landscape then
              insertAt b pdflscapeLine
                (insertAt b breqnLine (insertAt b pagestyleLine
                  (insertAt b timesLine (insertAt b (geomLine g landscape) src2))))
            else
              insertAt b breqnLine (insertAt b pagestyleLine
                (insertAt b timesLine
                  (insertAt b (geomLine g landscape) src2)))).map
            figPass).map sloppyPass)
      | _ => none

def twocolMark : List Char := "\\twocolumn".toList

/-- The per-file loop of make_single_column (source lines 190-194): drop
every line whose stripped content is the two-column directive, keep the
others in order. -/
def make_single_column_file : List (List Char) → List (List Char)
  | [] => []
  | line :: rest =>
    if pyStrip line == twocolMark then make_single_column_file rest
    else line :: make_single_column_file rest

/-- A resolved paper record (id and title are all download uses). -/
structure Paper where
  arxivId : List Char
  title : List Char
deriving DecidableEq

/-- Python iterable unpacking x, = l : succeeds on a one-element list and
raises ValueError otherwise (not enough / too many values to unpack). -/
def unpackSingle {α : Type} : List α → Except (List Char) α
  | [a] => Except.ok a
  | _ => Except.error "ValueError".toList

/-- The query-resolution step of download (source lines 57-60): the
unpacking of the result list happens inside the try block whose except
clause catches ValueError and raises SystemError with the paper-not-found
message. -/
def download_resolve (results : List Paper) : Except (List Char) Paper :=
  match unpackSingle results with
  | Except.ok p => Except.ok p
  | Except.error e =>
    if e = "ValueError".toList then
      Except.error "SystemError: Paper not found".toList
    else Except.error e

/-- The effect the Delivery step performs. -/
inductive DeliveryAct
  | moveInto (dir : List Char) (name : List Char)
  | writeStdout (bytes : List Nat)
  | moveTo (path : List Char)
deriving DecidableEq

/-- The destination dispatch of main (source lines 227-233): an existing
directory receives the file under the title plus the pdf extension, the
dash sentinel sends the bytes of the compiled file to standard output,
any other destination is the exact target path of the move.  Whether dest
is an existing directory is an input here (a filesystem fact in Python). -/
def deliver (destIsDir : Bool) (dest : List Char) (title : List Char)
    (pdfBytes : List Nat) : DeliveryAct :=
  if destIsDir then DeliveryAct.moveInto dest (title ++ ".pdf".toList)
  else if dest = "-".toList then DeliveryAct.writeStdout pdfBytes
  else DeliveryAct.moveTo dest

/-! Helper lemmas shared between claims. -/

/-- The per-file loop of make_single_column is a filter. -/
theorem msc_eq_filter (src : List (List Char)) :
    make_single_column_file src
      = src.filter (fun l => !(pyStrip l == twocolMark)) := by
  induction src with
  | nil => rfl
  | cons line rest ih =>
    by_cases h : pyStrip line = twocolMark
    · have hb : (pyStrip line == twocolMark) = true := by simp [h]
      simp [make_single_column_file, List.filter_cons, hb, ih]
    · have hb : (pyStrip line == twocolMark) = false := by simp [h]
      simp [make_single_column_file, List.filter_cons, hb, ih]

/-- Matching a literal pattern at the start of itself plus a rest. -/
theorem stripPre_self (p r : List Char) : stripPre p (p ++ r) = some r := by
  induction p with
  | nil => rfl
  | cons a ps ih => simp [stripPre, ih]

/-- takeWhile over a block satisfying p followed by a rest that starts
failing p. -/
theorem takeWhile_all_not (p : Char → Bool) (f r : List Char)
    (hf : f.all p = true) (hr : r.takeWhile p = []) :
    (f ++ r).takeWhile p = f := by
  induction f with
  | nil => simpa using hr
  | cons a fs ih =>
    rw [List.all_cons, Bool.and_eq_true] at hf
    simp [List.takeWhile_cons, hf.1, ih hf.2]

/-- dropWhile over a block satisfying p followed by a rest that starts
failing p. -/
theorem dropWhile_all_not (p : Char → Bool) (f r : List Char)
    (hf : f.all p = true) (hr : r.takeWhile p = []) :
    (f ++ r).dropWhile p = r := by
  induction f with
  | nil =>
    cases r with
    | nil => rfl
    | cons c cs =>
      rw [List.takeWhile_cons] at hr
      cases hc : p c with
      | false => simp [List.dropWhile_cons, hc]
      | true => rw [hc] at hr; simp at hr
  | cons a fs ih =>
    rw [List.all_cons, Bool.and_eq_true] at hf
    simp [List.dropWhile_cons, hf.1, ih hf.2]

/-- The width pattern with the linewidth closing matches at the start of
a line of the claimed shape, capturing the fraction and leaving the
tail. -/
theorem matchWidthAt_here_lw (f t : List Char) (hne : f ≠ [])
    (hall : f.all digitDot = true) :
    matchWidthAt ("\\includegraphics[width=".toList ++ f ++ "\\linewidth]".toList ++ t)
      = some (f, t) := by
  have htw : ("\\linewidth]".toList ++ t).takeWhile digitDot = [] := rfl
  unfold matchWidthAt
  rw [List.append_assoc, List.append_assoc, stripPre_self]
  show widthTail (f ++ ("\\linewidth]".toList ++ t)) = some (f, t)
  unfold widthTail
  rw [takeWhile_all_not digitDot f _ hall htw,
    dropWhile_all_not digitDot f _ hall htw, if_neg hne]
  rfl

/-- The width pattern with the textwidth closing matches likewise. -/
theorem matchWidthAt_here_tw (f t : List Char) (hne : f ≠ [])
    (hall : f.all digitDot = true) :
    matchWidthAt ("\\includegraphics[width=".toList ++ f ++ "\\textwidth]".toList ++ t)
      = some (f, t) := by
  have htw : ("\\textwidth]".toList ++ t).takeWhile digitDot = [] := rfl
  unfold matchWidthAt
  rw [List.append_assoc, List.append_assoc, stripPre_self]
  show widthTail (f ++ ("\\textwidth]".toList ++ t)) = some (f, t)
  unfold widthTail
  rw [takeWhile_all_not digitDot f _ hall htw,
    dropWhile_all_not digitDot f _ hall htw, if_neg hne]
  rfl

/-- The width pattern needs a backslash at its first character. -/
theorem matchWidthAt_none (c : Char) (cs : List Char) (hc : ¬ c = '\\') :
    matchWidthAt (c :: cs) = none := by
  have hb : ('\\' == c) = false := by
    simp only [beq_eq_false_iff_ne, ne_eq]
    exact fun h => hc h.symm
  have h1 : stripPre "\\includegraphics[width=".toList (c :: cs) = none := by
    show stripPre ('\\' :: "includegraphics[width=".toList) (c :: cs) = none
    simp [stripPre, hb]
  unfold matchWidthAt
  rw [h1]
  rfl

/-- Substituting the width pattern in a string without backslashes does
nothing, whatever the fuel. -/
theorem subAllF_width_id (repl : List Char) :
    ∀ (fu : Nat) (t : List Char), ('\\' : Char) ∉ t →
      subAllF matchWidthAt repl fu t = t := by
  intro fu
  induction fu with
  | zero => intro t ht; cases t <;> rfl
  | succ n ih =>
    intro t ht
    cases t with
    | nil => rfl
    | cons c cs =>
      simp only [List.mem_cons, not_or] at ht
      have hm : matchWidthAt (c :: cs) = none :=
        matchWidthAt_none c cs (fun h => ht.1 h.symm)
      simp [subAllF, hm, ih cs ht.2]

/-- The leftmost match of a pattern that matches at the head. -/
theorem firstMatch_cons (m : List Char → Option (List Char × List Char))
    (c : Char) (cs f r : List Char) (h : m (c :: cs) = some (f, r)) :
    firstMatch m (c :: cs) = some f := by
  simp [firstMatch, h]

/-- One substitution step at a head match. -/
theorem subAll_cons (m : List Char → Option (List Char × List Char))
    (repl : List Char) (c : Char) (cs g rest : List Char)
    (h : m (c :: cs) = some (g, rest)) :
    subAll m repl (c :: cs) = repl ++ subAllF m repl cs.length rest := by
  simp [subAll, subAllF, h]

/-- findClose decides the existence of a dollar sign preceded only by
non-newline characters. -/
theorem findClose_iff (cs : List Char) :
    findClose cs = true
      ↔ ∃ mid q, cs = mid ++ '$' :: q ∧ ('\n' : Char) ∉ mid := by
  induction cs with
  | nil =>
    constructor
    · intro h; exact absurd h (by simp [findClose])
    · rintro ⟨mid, q, heq, -⟩
      exact absurd heq.symm (by simp)
  | cons c cs ih =>
    by_cases hd : c = '$'
    · subst hd
      constructor
      · intro _
        exact ⟨[], cs, rfl, by simp⟩
      · intro _
        simp [findClose]
    · by_cases hn : c = '\n'
      · subst hn
        constructor
        · intro h
          rw [findClose] at h
          simp at h
        · rintro ⟨mid, q, heq, hni⟩
          cases mid with
          | nil => simp at heq
          | cons m ms =>
            rw [List.cons_append, List.cons.injEq] at heq
            exact absurd (heq.1 ▸ List.mem_cons_self m ms) (heq.1 ▸ hni)
      · have hstep : findClose (c :: cs) = findClose cs := by
          rw [findClose]
          have h1 : (c == '$') = false := by simp [hd]
          have h2 : (c == '\n') = false := by simp [hn]
          rw [h1, h2]
          simp
        rw [hstep, ih]
        constructor
        · rintro ⟨mid, q, heq, hni⟩
          refine ⟨c :: mid, q, by rw [heq, List.cons_append], fun hmem => ?_⟩
          rcases List.mem_cons.mp hmem with h | h
          · exact hn h.symm
          · exact hni h
        · rintro ⟨mid, q, heq, hni⟩
          cases mid with
          | nil =>
            rw [List.nil_append, List.cons.injEq] at heq
            exact absurd heq.1 hd
          | cons m ms =>
            rw [List.cons_append, List.cons.injEq] at heq
            refine ⟨ms, q, heq.2, fun hmem => hni ?_⟩
            exact List.mem_cons_of_mem m hmem

/-- afterOpen decides the existence of a closing dollar sign with a
nonempty newline-free stretch before it. -/
theorem afterOpen_iff (cs : List Char) :
    afterOpen cs = true
      ↔ ∃ mid q, cs = mid ++ '$' :: q ∧ mid ≠ [] ∧ ('\n' : Char) ∉ mid := by
  cases cs with
  | nil =>
    constructor
    · intro h; exact absurd h (by simp [afterOpen])
    · rintro ⟨mid, q, heq, hne, -⟩
      cases mid with
      | nil => exact absurd rfl hne
      | cons m ms => exact absurd heq.symm (by simp)
  | cons c cs =>
    by_cases hn : c = '\n'
    · subst hn
      constructor
      · intro h
        rw [afterOpen] at h
        simp at h
      · rintro ⟨mid, q, heq, hne, hni⟩
        cases mid with
        | nil => exact absurd rfl hne
        | cons m ms =>
          rw [List.cons_append, List.cons.injEq] at heq
          exact absurd (heq.1 ▸ List.mem_cons_self m ms) (heq.1 ▸ hni)
    · have hstep : afterOpen (c :: cs) = findClose cs := by
        rw [afterOpen]
        have h2 : (c == '\n') = false := by simp [hn]
        rw [h2]
        simp
      rw [hstep, findClose_iff]
      constructor
      · rintro ⟨mid, q, heq, hni⟩
        refine ⟨c :: mid, q, by rw [heq, List.cons_append], by simp,
          fun hmem => ?_⟩
        rcases List.mem_cons.mp hmem with h | h
        · exact hn h.symm
        · exact hni h
      · rintro ⟨mid, q, heq, hne, hni⟩
        cases mid with
        | nil => exact absurd rfl hne
        | cons m ms =>
          rw [List.cons_append, List.cons.injEq] at heq
          refine ⟨ms, q, heq.2, fun hmem => hni ?_⟩
          exact List.mem_cons_of_mem m hmem

/-- hasDollarPair decides the existence of an inline-math region: an
opening dollar, a nonempty newline-free stretch, a closing dollar. -/
theorem hasDollarPair_iff (l : List Char) :
    hasDollarPair l = true
      ↔ ∃ p mid q, l = p ++ '$' :: (mid ++ '$' :: q) ∧ mid ≠ []
          ∧ ('\n' : Char) ∉ mid := by
  induction l with
  | nil =>
    constructor
    · intro h; exact absurd h (by simp [hasDollarPair])
    · rintro ⟨p, mid, q, heq, -, -⟩
      exact absurd heq.symm (by simp)
  | cons c cs ih =>
    rw [hasDollarPair]
    rw [Bool.or_eq_true, Bool.and_eq_true, beq_iff_eq]
    constructor
    · rintro (⟨hc, hopen⟩ | htail)
      · obtain ⟨mid, q, heq, hne, hni⟩ := (afterOpen_iff cs).mp hopen
        exact ⟨[], mid, q, by rw [List.nil_append, hc, heq], hne, hni⟩
      · obtain ⟨p, mid, q, heq, hne, hni⟩ := ih.mp htail
        exact ⟨c :: p, mid, q, by rw [heq, List.cons_append], hne, hni⟩
    · rintro ⟨p, mid, q, heq, hne, hni⟩
      cases p with
      | nil =>
        rw [List.nil_append, List.cons.injEq] at heq
        exact Or.inl ⟨heq.1, (afterOpen_iff cs).mpr ⟨mid, q, heq.2, hne, hni⟩⟩
      | cons a ps =>
        rw [List.cons_append, List.cons.injEq] at heq
        exact Or.inr (ih.mpr ⟨ps, mid, q, heq.2, hne, hni⟩)

/-- Python list.insert at the length of a left part drops the new element
exactly between the parts. -/
theorem insertAt_append {α : Type} (x : α) (A B : List α) :
    insertAt A.length x (A ++ B) = A ++ x :: B := by
  induction A with
  | nil => cases B <;> rfl
  | cons a as ih => simpa [insertAt] using ih

/-- A singleton index list locates a unique split of the list at an
element satisfying the predicate. -/
theorem idxsWhere_singleton {α : Type} (p : α → Bool) :
    ∀ (l : List α) (b : Nat), idxsWhere p l = [b] →
      ∃ A x B, l = A ++ x :: B ∧ A.length = b ∧ p x = true := by
  intro l
  induction l with
  | nil => intro b h; simp [idxsWhere] at h
  | cons a as ih =>
    intro b h
    by_cases hp : p a
    · rw [idxsWhere, if_pos hp] at h
      rw [List.cons.injEq] at h
      exact ⟨[], a, as, rfl, h.1, hp⟩
    · have hp2 : p a = false := by simpa using hp
      rw [idxsWhere, if_neg (by simp [hp2])] at h
      cases hr : idxsWhere p as with
      | nil => rw [hr] at h; simp at h
      | cons y ys =>
        rw [hr] at h
        rw [List.map_cons, List.cons.injEq] at h
        have hys : ys = [] := by
          cases ys with
          | nil => rfl
          | cons z zs => simp at h
        subst hys
        obtain ⟨A, x, B, hsplit, hlen, hx⟩ := ih y (by rw [hr])
        exact ⟨a :: A, x, B, by rw [List.cons_append, hsplit],
          by simp [hlen, ← h.1], hx⟩

/-- The four constant inserted lines are fixed points of the figure pass
followed by the inline-math pass. -/
theorem fix_pdflscape : sloppyPass (figPass pdflscapeLine) = pdflscapeLine := by
  decide

theorem fix_breqn : sloppyPass (figPass breqnLine) = breqnLine := by decide

theorem fix_pagestyle : sloppyPass (figPass pagestyleLine) = pagestyleLine := by
  decide

theorem fix_times : sloppyPass (figPass timesLine) = timesLine := by decide

/-! Theorems for the claims. -/

/-- C7: in the inline-math pass, every line containing an inline-math
region (text delimited by a single-dollar pair with at least one
character, not spanning a newline) is prefixed with the
line-break-permitting directive, and every line containing no such
region is left untouched by this pass. -/
theorem c7_inline_math (line : List Char) :
    ((∃ p mid q, line = p ++ '$' :: (mid ++ '$' :: q) ∧ mid ≠ []
        ∧ ('\n' : Char) ∉ mid) →
      sloppyPass line = "\\sloppy ".toList ++ line)
    ∧ ((¬ ∃ p mid q, line = p ++ '$' :: (mid ++ '$' :: q) ∧ mid ≠ []
        ∧ ('\n' : Char) ∉ mid) →
      sloppyPass line = line) := by
  constructor
  · intro h
    have hb : hasDollarPair line = true := (hasDollarPair_iff line).mpr h
    simp [sloppyPass, hb]
  · intro h
    have hb : hasDollarPair line = false := by
      cases hres : hasDollarPair line with
      | false => rfl
      | true => exact absurd ((hasDollarPair_iff line).mp hres) h
    simp [sloppyPass, hb]

theorem c7_inline_math_witness :
    sloppyPass "a $x+1$ b\n".toList
        = "\\sloppy ".toList ++ "a $x+1$ b\n".toList
    ∧ sloppyPass "no math\n".toList = "no math\n".toList :=
  ⟨(c7_inline_math "a $x+1$ b\n".toList).1
      ⟨"a ".toList, "x+1".toList, " b\n".toList, by decide, by decide, by decide⟩,
   (c7_inline_math "no math\n".toList).2
     (fun hex =>
       absurd ((hasDollarPair_iff "no math\n".toList).mpr hex) (by decide))⟩

/-- C4: on a document-class line carrying the options 12pt, twocolumn,
a4paper the token removals and comma normalizations of the Geometry
Rewriter leave an empty options list, and on the options 12pt, draft,
a4paper they leave exactly draft: unrelated options survive and no stray
comma remains whether the removed token sits first, in the middle or
last.  The tail t of the line is arbitrary as long as each of the five
substitutions leaves it alone (any ordinary class-name suffix such as
{article} does). -/
theorem c4_dclass_options (t : List Char)
    (h1 : subWordRuns ptRun t = t) (h2 : subWordRuns colRun t = t)
    (h3 : subWordRuns papRun t = t) (h4 : cs1 false t = t)
    (h5 : cs2 t = t) :
    dclassSub ("\\documentclass[12pt,twocolumn,a4paper]".toList ++ t)
      = "\\documentclass[]".toList ++ t
    ∧ dclassSub ("\\documentclass[12pt,draft,a4paper]".toList ++ t)
      = "\\documentclass[draft]".toList ++ t := by
  constructor
  · show cs2 (cs1 false (subWordRuns papRun (subWordRuns colRun (subWordRuns ptRun
      ("\\documentclass[12pt,twocolumn,a4paper]".toList ++ t)))))
      = "\\documentclass[]".toList ++ t
    have e1 : subWordRuns ptRun ("\\documentclass[12pt,twocolumn,a4paper]".toList ++ t)
        = "\\documentclass[,twocolumn,a4paper]".toList ++ subWordRuns ptRun t := rfl
    rw [e1, h1]
    have e2 : subWordRuns colRun ("\\documentclass[,twocolumn,a4paper]".toList ++ t)
        = "\\documentclass[,,a4paper]".toList ++ subWordRuns colRun t := rfl
    rw [e2, h2]
    have e3 : subWordRuns papRun ("\\documentclass[,,a4paper]".toList ++ t)
        = "\\documentclass[,,]".toList ++ subWordRuns papRun t := rfl
    rw [e3, h3]
    have e4 : cs1 false ("\\documentclass[,,]".toList ++ t)
        = "\\documentclass[,]".toList ++ cs1 false t := rfl
    rw [e4, h4]
    have e5 : cs2 ("\\documentclass[,]".toList ++ t)
        = "\\documentclass[]".toList ++ cs2 t := rfl
    rw [e5, h5]
  · show cs2 (cs1 false (subWordRuns papRun (subWordRuns colRun (subWordRuns ptRun
      ("\\documentclass[12pt,draft,a4paper]".toList ++ t)))))
      = "\\documentclass[draft]".toList ++ t
    have e1 : subWordRuns ptRun ("\\documentclass[12pt,draft,a4paper]".toList ++ t)
        = "\\documentclass[,draft,a4paper]".toList ++ subWordRuns ptRun t := rfl
    rw [e1, h1]
    have e2 : subWordRuns colRun ("\\documentclass[,draft,a4paper]".toList ++ t)
        = "\\documentclass[,draft,a4paper]".toList ++ subWordRuns colRun t := rfl
    rw [e2, h2]
    have e3 : subWordRuns papRun ("\\documentclass[,draft,a4paper]".toList ++ t)
        = "\\documentclass[,draft,]".toList ++ subWordRuns papRun t := rfl
    rw [e3, h3]
    have e4 : cs1 false ("\\documentclass[,draft,]".toList ++ t)
        = "\\documentclass[draft,]".toList ++ cs1 false t := rfl
    rw [e4, h4]
    have e5 : cs2 ("\\documentclass[draft,]".toList ++ t)
        = "\\documentclass[draft]".toList ++ cs2 t := rfl
    rw [e5, h5]

theorem c4_dclass_options_witness :
    dclassSub ("\\documentclass[12pt,twocolumn,a4paper]".toList ++ "{article}\n".toList)
      = "\\documentclass[]".toList ++ "{article}\n".toList
    ∧ dclassSub ("\\documentclass[12pt,draft,a4paper]".toList ++ "{article}\n".toList)
      = "\\documentclass[draft]".toList ++ "{article}\n".toList :=
  c4_dclass_options "{article}\n".toList (by decide) (by decide) (by decide)
    (by decide) (by decide)

/-- C1: the spec says the comment/blank filtering step is purely cosmetic
and has no functional effect, the token removals still being applied to
the document-class line even when comment or blank lines precede it.  The
code computes the document-class index before filtering but applies the
substitutions at that index inside the filtered list, so with one comment
line before the document-class line the substitutions hit the line after
it and the 12pt token survives; the second conjunct shows the
substitutions would clean the options had they been applied to the
document-class line itself.  The spec states the evident intent of the
code (whose own comments call the filter cosmetic and say the stripping
happens in the documentclass line), so this is a bug in the code. -/
theorem c1_stale_index_eval :
    change_size
      ["% intro comment\n".toList, "\\documentclass[12pt]{article}\n".toList,
       "\\begin{document}\n".toList, "\\end{document}\n".toList]
      [("paperwidth".toList, "4.0in".toList), ("paperheight".toList, "6.0in".toList),
       ("margin".toList, "0.2in".toList)] false
      = some
        ["\\documentclass[12pt]{article}\n".toList, "\\usepackage{breqn}\n".toList,
         "\\pagestyle{empty}\n".toList, "\\usepackage{times}\n".toList,
         "\\usepackage[paperwidth=4.0in,paperheight=6.0in,margin=0.2in]{geometry}\n".toList,
         "\\begin{document}\n".toList, "\\end{document}\n".toList]
    ∧ dclassSub "\\documentclass[12pt]{article}\n".toList
        = "\\documentclass[]{article}\n".toList :=
  ⟨by decide, by decide⟩

/-- C2 counterexample: at a concrete accepted main file with landscape
requested, the inserted lines appear in the order pdflscape, breqn,
pagestyle, times, geometry, not in the claimed order pagestyle, breqn,
times, geometry, pdflscape (the claimed and actual inserted blocks are
distinct lists). -/
theorem c2_order_counterexample :
    change_size
      ["\\documentclass{article}\n".toList, "\\begin{document}\n".toList,
       "\\end{document}\n".toList]
      [("paperwidth".toList, "6.0in".toList), ("paperheight".toList, "4.0in".toList),
       ("margin".toList, "0.2in".toList)] true
      = some
        ["\\documentclass{article}\n".toList, "\\usepackage{pdflscape}\n".toList,
         "\\usepackage{breqn}\n".toList, "\\pagestyle{empty}\n".toList,
         "\\usepackage{times}\n".toList,
         "\\usepackage[paperwidth=6.0in,paperheight=4.0in,margin=0.2in,landscape]{geometry}\n".toList,
         "\\begin{document}\n".toList, "\\end{document}\n".toList]
    ∧ ["\\usepackage{pdflscape}\n".toList, "\\usepackage{breqn}\n".toList,
       "\\pagestyle{empty}\n".toList, "\\usepackage{times}\n".toList,
       "\\usepackage[paperwidth=6.0in,paperheight=4.0in,margin=0.2in,landscape]{geometry}\n".toList]
      ≠ ["\\pagestyle{empty}\n".toList, "\\usepackage{breqn}\n".toList,
         "\\usepackage{times}\n".toList,
         "\\usepackage[paperwidth=6.0in,paperheight=4.0in,margin=0.2in,landscape]{geometry}\n".toList,
         "\\usepackage{pdflscape}\n".toList] :=
  ⟨by decide, by decide⟩

/-- C2 amended: for every accepted main file, change_size inserts,
immediately before the (transformed) line beginning the document body
and in this top-to-bottom order in the output: when landscape is
requested the landscape-page package, then the inline-math line-breaking
package, then the page-style directive suppressing headers and footers,
then the serif-font package, then the geometry invocation whose options
are the settings serialized as comma-joined key=value pairs with
,landscape appended exactly when the landscape flag is set (the claimed
order - page style, line breaking, serif, geometry, landscape package
last - is not the one produced, see the counterexample).  The side
condition asks that the serialized geometry line is itself left fixed by
the figure and inline-math passes, which holds for the numeric settings
the tool constructs. -/
theorem c2_insertion_order (src : List (List Char))
    (g : List (List Char × List Char)) (landscape : Bool)
    (out : List (List Char))
    (hcs : change_size src g landscape = some out)
    (hg : sloppyPass (figPass (geomLine g landscape)) = geomLine g landscape) :
    (∃ pre body post,
      out = pre
        ++ ((if landscape then [pdflscapeLine] else [])
            ++ [breqnLine, pagestyleLine, timesLine, geomLine g landscape])
        ++ sloppyPass (figPass body) :: post
      ∧ (stripPre beginDocMark body).isSome = true)
    ∧ geomLine g landscape
        = "\\usepackage[".toList
          ++ joinComma (g.map (fun kv => kv.1 ++ '=' :: kv.2))
          ++ (if landscape then ",landscape".toList else [])
          ++ "]{geometry}\n".toList := by
  constructor
  · unfold change_size at hcs
    split at hcs
    · simp at hcs
    · split at hcs
      · simp at hcs
      · rename_i src2 heq2
        split at hcs
        · rename_i b heq3
          obtain ⟨A, body, B, hsplit, hlen, hx⟩ :=
            idxsWhere_singleton _ src2 b heq3
          subst hlen
          subst hsplit
          have hout := Option.some.inj hcs
          cases landscape with
          | true =>
            rw [if_pos rfl] at hout
            rw [insertAt_append, insertAt_append, insertAt_append,
              insertAt_append, insertAt_append] at hout
            refine ⟨(A.map figPass).map sloppyPass, body,
              (B.map figPass).map sloppyPass, ?_, hx⟩
            rw [← hout]
            simp [List.map_append, fix_pdflscape, fix_breqn, fix_pagestyle,
              fix_times, hg, List.append_assoc]
          | false =>
            rw [if_neg (by simp)] at hout
            rw [insertAt_append, insertAt_append, insertAt_append,
              insertAt_append] at hout
            refine ⟨(A.map figPass).map sloppyPass, body,
              (B.map figPass).map sloppyPass, ?_, hx⟩
            rw [← hout]
            simp [List.map_append, fix_breqn, fix_pagestyle,
              fix_times, hg, List.append_assoc]
        · simp at hcs
  · simp [geomLine, geomStr, List.append_assoc]

theorem c2_insertion_order_witness :
    (∃ pre body post,
      ["\\documentclass{article}\n".toList, "\\usepackage{pdflscape}\n".toList,
       "\\usepackage{breqn}\n".toList, "\\pagestyle{empty}\n".toList,
       "\\usepackage{times}\n".toList,
       "\\usepackage[paperwidth=6.0in,paperheight=4.0in,margin=0.2in,landscape]{geometry}\n".toList,
       "\\begin{document}\n".toList, "\\end{document}\n".toList]
        = pre
          ++ ((if true then [pdflscapeLine] else [])
              ++ [breqnLine, pagestyleLine, timesLine,
                  geomLine
                    [("paperwidth".toList, "6.0in".toList),
                     ("paperheight".toList, "4.0in".toList),
                     ("margin".toList, "0.2in".toList)] true])
          ++ sloppyPass (figPass body) :: post
      ∧ (stripPre beginDocMark body).isSome = true)
    ∧ geomLine
        [("paperwidth".toList, "6.0in".toList),
         ("paperheight".toList, "4.0in".toList),
         ("margin".toList, "0.2in".toList)] true
        = "\\usepackage[".toList
          ++ joinComma
            ([("paperwidth".toList, "6.0in".toList),
              ("paperheight".toList, "4.0in".toList),
              ("margin".toList, "0.2in".toList)].map
              (fun kv => kv.1 ++ '=' :: kv.2))
          ++ (if true then ",landscape".toList else [])
          ++ "]{geometry}\n".toList :=
  c2_insertion_order
    ["\\documentclass{article}\n".toList, "\\begin{document}\n".toList,
     "\\end{document}\n".toList]
    [("paperwidth".toList, "6.0in".toList),
     ("paperheight".toList, "4.0in".toList),
     ("margin".toList, "0.2in".toList)] true
    ["\\documentclass{article}\n".toList, "\\usepackage{pdflscape}\n".toList,
     "\\usepackage{breqn}\n".toList, "\\pagestyle{empty}\n".toList,
     "\\usepackage{times}\n".toList,
     "\\usepackage[paperwidth=6.0in,paperheight=4.0in,margin=0.2in,landscape]{geometry}\n".toList,
     "\\begin{document}\n".toList, "\\end{document}\n".toList]
    (by decide) (by decide)

/-- C3: the claim says a scale-s figure line is rewritten to an
includegraphics line whose bracketed options are exactly scale=s/2 with
the rest unchanged.  The replacement template of source line 153 contains
escaped brackets, which Python re.sub keeps verbatim, so the rewritten
line contains a spurious backslash before each option bracket: the first
conjunct evaluates the figure pass at the example given by the spec and the
second shows the result differs from the claimed well-bracketed line.
The adjacent width branch (line 137) emits plain brackets and the spec
records the evident intent, so this is a bug in the code. -/
theorem c3_scale_escape_eval :
    figPass "\\includegraphics[scale=0.4]{fig}\n".toList
      = "\\includegraphics\\[scale=0.2\\]{fig}\n".toList
    ∧ "\\includegraphics\\[scale=0.2\\]{fig}\n".toList
      ≠ "\\includegraphics[scale=0.2]{fig}\n".toList :=
  ⟨by decide, by decide⟩

/-- C5: a line declaring a figure with width a decimal fraction f of the
line width or of the text width is rewritten by the figure pass to
specify width f textwidth and height f textheight together with the
aspect-ratio-preserving option, the rest of the line (any tail without a
backslash, such as the figure-name braces) unchanged. -/
theorem c5_width_fraction (f t : List Char) (hne : f ≠ [])
    (hall : f.all digitDot = true) (ht : ('\\' : Char) ∉ t) :
    figPass ("\\includegraphics[width=".toList ++ f ++ "\\linewidth]".toList ++ t)
      = "\\includegraphics[width=".toList ++ f ++ "\\textwidth,height=".toList
        ++ f ++ "\\textheight,keepaspectratio]".toList ++ t
    ∧ figPass ("\\includegraphics[width=".toList ++ f ++ "\\textwidth]".toList ++ t)
      = "\\includegraphics[width=".toList ++ f ++ "\\textwidth,height=".toList
        ++ f ++ "\\textheight,keepaspectratio]".toList ++ t := by
  constructor
  · have hm : matchWidthAt
        ("\\includegraphics[width=".toList ++ f ++ "\\linewidth]".toList ++ t)
        = some (f, t) := matchWidthAt_here_lw f t hne hall
    have hfm : firstMatch matchWidthAt
        ("\\includegraphics[width=".toList ++ f ++ "\\linewidth]".toList ++ t)
        = some f :=
      firstMatch_cons matchWidthAt '\\'
        ("includegraphics[width=".toList ++ f ++ "\\linewidth]".toList ++ t) f t hm
    unfold figPass
    rw [hfm]
    show subAll matchWidthAt (widthRepl f)
        ("\\includegraphics[width=".toList ++ f ++ "\\linewidth]".toList ++ t)
      = _
    calc subAll matchWidthAt (widthRepl f)
          ("\\includegraphics[width=".toList ++ f ++ "\\linewidth]".toList ++ t)
        = widthRepl f ++ subAllF matchWidthAt (widthRepl f)
            ("includegraphics[width=".toList ++ f ++ "\\linewidth]".toList ++ t).length
            t :=
          subAll_cons matchWidthAt (widthRepl f) '\\'
            ("includegraphics[width=".toList ++ f ++ "\\linewidth]".toList ++ t) f t hm
      _ = widthRepl f ++ t := by rw [subAllF_width_id (widthRepl f) _ t ht]
      _ = "\\includegraphics[width=".toList ++ f ++ "\\textwidth,height=".toList
            ++ f ++ "\\textheight,keepaspectratio]".toList ++ t := by
          simp [widthRepl, List.append_assoc]
  · have hm : matchWidthAt
        ("\\includegraphics[width=".toList ++ f ++ "\\textwidth]".toList ++ t)
        = some (f, t) := matchWidthAt_here_tw f t hne hall
    have hfm : firstMatch matchWidthAt
        ("\\includegraphics[width=".toList ++ f ++ "\\textwidth]".toList ++ t)
        = some f :=
      firstMatch_cons matchWidthAt '\\'
        ("includegraphics[width=".toList ++ f ++ "\\textwidth]".toList ++ t) f t hm
    unfold figPass
    rw [hfm]
    show subAll matchWidthAt (widthRepl f)
        ("\\includegraphics[width=".toList ++ f ++ "\\textwidth]".toList ++ t)
      = _
    calc subAll matchWidthAt (widthRepl f)
          ("\\includegraphics[width=".toList ++ f ++ "\\textwidth]".toList ++ t)
        = widthRepl f ++ subAllF matchWidthAt (widthRepl f)
            ("includegraphics[width=".toList ++ f ++ "\\textwidth]".toList ++ t).length
            t :=
          subAll_cons matchWidthAt (widthRepl f) '\\'
            ("includegraphics[width=".toList ++ f ++ "\\textwidth]".toList ++ t) f t hm
      _ = widthRepl f ++ t := by rw [subAllF_width_id (widthRepl f) _ t ht]
      _ = "\\includegraphics[width=".toList ++ f ++ "\\textwidth,height=".toList
            ++ f ++ "\\textheight,keepaspectratio]".toList ++ t := by
          simp [widthRepl, List.append_assoc]

theorem c5_width_fraction_witness :
    figPass ("\\includegraphics[width=".toList ++ "0.9".toList
        ++ "\\linewidth]".toList ++ "{fig}\n".toList)
      = "\\includegraphics[width=".toList ++ "0.9".toList
        ++ "\\textwidth,height=".toList ++ "0.9".toList
        ++ "\\textheight,keepaspectratio]".toList ++ "{fig}\n".toList :=
  (c5_width_fraction "0.9".toList "{fig}\n".toList (by decide) (by decide)
    (by decide)).1

/-- C6: the per-file transformation of the Single-Column Normalizer removes
exactly the lines whose entire stripped content is the two-column
directive, keeping every other line unchanged and in order (it is the
filter by that criterion); a bare directive line with surrounding
whitespace is removed, while a longer word or a line where the directive
is not the entire trimmed content is preserved. -/
theorem c6_single_column_filter :
    (∀ src : List (List Char),
      make_single_column_file src
        = src.filter (fun l => !(pyStrip l == twocolMark)))
    ∧ make_single_column_file ["  \\twocolumn  \n".toList] = []
    ∧ make_single_column_file ["\\twocolumnsomething\n".toList]
        = ["\\twocolumnsomething\n".toList]
    ∧ make_single_column_file [" \\twocolumn extra\n".toList]
        = [" \\twocolumn extra\n".toList] :=
  ⟨msc_eq_filter, by decide, by decide, by decide⟩

/-- C8 counterexample: with two resolved records, the implementation does
not surface an unpacking error: the ValueError raised by the unpacking is
caught by the same handler as the zero-result case and turned into the
structured paper-not-found condition. -/
theorem c8_multi_match_counterexample :
    download_resolve
        [⟨"1".toList, "A".toList⟩, ⟨"2".toList, "B".toList⟩]
      = Except.error "SystemError: Paper not found".toList
    ∧ "SystemError: Paper not found".toList ≠ "ValueError".toList :=
  ⟨rfl, by decide⟩

/-- C8 amended: whenever the query resolves to anything other than exactly
one record - zero or several - the unpacking failure is caught by the
except clause and the run fails with the structured paper-not-found
condition; the two outcomes are literally the same failure. -/
theorem c8_not_found_both (rs : List Paper) (h : rs.length ≠ 1) :
    download_resolve rs
      = Except.error "SystemError: Paper not found".toList := by
  match rs with
  | [] => rfl
  | [p] => exact absurd rfl h
  | p :: q :: rest => rfl

theorem c8_not_found_both_witness :
    download_resolve [] = Except.error "SystemError: Paper not found".toList :=
  c8_not_found_both [] (by decide)

/-- C9: Delivery dispatches on the destination in three mutually exclusive
cases, in this order: an existing directory receives the final file under
the title plus the pdf extension; the stdout sentinel makes the bytes
written to standard output those of the compiled file; any other
destination is the exact target of the move. -/
theorem c9_delivery_dispatch (isDir : Bool) (dest title : List Char)
    (bytes : List Nat) :
    (isDir = true →
      deliver isDir dest title bytes
        = DeliveryAct.moveInto dest (title ++ ".pdf".toList))
    ∧ (isDir = false → dest = "-".toList →
      deliver isDir dest title bytes = DeliveryAct.writeStdout bytes)
    ∧ (isDir = false → dest ≠ "-".toList →
      deliver isDir dest title bytes = DeliveryAct.moveTo dest) := by
  refine ⟨fun h => ?_, fun h h2 => ?_, fun h h2 => ?_⟩ <;> subst h
  · simp [deliver]
  · subst h2; simp [deliver]
  · have h3 : ¬ dest = ['-'] := by simpa using h2
    simp [deliver, h3]

theorem c9_delivery_dispatch_witness :
    deliver true "out".toList "t".toList [3, 7]
        = DeliveryAct.moveInto "out".toList ("t".toList ++ ".pdf".toList)
    ∧ deliver false "-".toList "t".toList [3, 7] = DeliveryAct.writeStdout [3, 7]
    ∧ deliver false "paper.pdf".toList "t".toList [3, 7]
        = DeliveryAct.moveTo "paper.pdf".toList :=
  ⟨(c9_delivery_dispatch true "out".toList "t".toList [3, 7]).1 rfl,
   (c9_delivery_dispatch false "-".toList "t".toList [3, 7]).2.1 rfl rfl,
   (c9_delivery_dispatch false "paper.pdf".toList "t".toList [3, 7]).2.2 rfl
     (by decide)⟩

/-- C10: the per-file transformation of the Single-Column Normalizer is
idempotent: filtering the bare two-column lines a second time changes
nothing. -/
theorem c10_single_column_idempotent (src : List (List Char)) :
    make_single_column_file (make_single_column_file src)
      = make_single_column_file src := by
  induction src with
  | nil => rfl
  | cons line rest ih =>
    by_cases h : pyStrip line = twocolMark
    · have hb : (pyStrip line == twocolMark) = true := by simp [h]
      simp [make_single_column_file, hb, ih]
    · have hb : (pyStrip line == twocolMark) = false := by simp [h]
      simp [make_single_column_file, hb, ih]

end A2K
